import Mathlib

/-!
Shallow embedding of the mmio register-bank kernel module
(src/mmio.c together with src/mmio.h).

Machine integers are modelled as Nat with explicit reductions modulo
powers of two exactly where the C code truncates: u32 register values
are reduced modulo 2 to the 32, the unsigned long set-value is reduced
modulo 2 to the 64, and the raw hardware access of a bank of byte size
1, 2 or 4 truncates to 8, 16 or 32 bits.  The hardware register is
threaded through get/set as an explicit Nat state.  The two
bit-normalization while-loops of mmio_get_value and mmio_set_value are
embedded with an explicit fuel parameter; a result of none means the
loop has not finished within the given fuel (for a zero mask it never
finishes, which is proved below).
-/

/-- One bitfield of a register, struct mmio_entry of src/mmio.h
(the device_attribute member is sysfs glue and carries no data of its
own, so it is not part of the embedding). -/
structure MmioEntry where
  name : String
  mask : Nat
  flags : Nat
deriving DecidableEq

/-- A register bank, struct mmio_classdev of src/mmio.h.  The C name,
entries and base members are pointers that may be null: name and
entries are embedded as Option, and the void pointer base as a Nat
address whose null value is 0. -/
structure MmioClassdev where
  name : Option String
  size : Nat
  entries : Option (List MmioEntry)
  offset : Nat
  base : Nat
deriving DecidableEq

/-- MMIO_ENTRY_READ of src/mmio.h. -/
def MMIO_ENTRY_READ : Nat := 1

/-- MMIO_ENTRY_WRITE of src/mmio.h. -/
def MMIO_ENTRY_WRITE : Nat := 2

/-- Bit width of the raw hardware access for a bank of the given byte
size: the switch statements of mmio_get_value and mmio_set_value use
readb/writeb for size 1 and for the default case, readw/writew for
size 2 and readl/writel for size 4. -/
def regWidthBits (size : Nat) : Nat :=
  if size = 2 then 16 else if size = 4 then 32 else 8

/-- The raw register read of the switch in mmio_get_value and
mmio_set_value: a read of regWidthBits size bits from the hardware
state. -/
def rawRead (size hw : Nat) : Nat := hw % 2 ^ regWidthBits size

/-- The raw register write of the switch at the end of mmio_set_value:
the (u8), (u16) casts and the u32 argument of writel truncate the
value to the access width; the new hardware state is that truncation. -/
def rawWrite (size reg : Nat) : Nat := reg % 2 ^ regWidthBits size

/-- Bitwise complement of a u32 mask, the C expression ~entry->mask of
mmio_set_value: for m below 2 to the 32 this is the 32-bit one
complement of m. -/
def not32 (m : Nat) : Nat := (2 ^ 32 - 1) ^^^ (m % 2 ^ 32)

/-- The normalization loop of mmio_get_value, lines 61 to 66 of
src/mmio.c: while the low bit of mask is clear, shift mask and reg
right one bit.  Fuel counts the remaining permitted iterations; none
means the loop did not terminate within the fuel. -/
def getLoop : Nat → Nat → Nat → Option Nat
  | 0, mask, reg => if mask % 2 = 1 then some reg else none
  | fuel + 1, mask, reg =>
      if mask % 2 = 1 then some reg else getLoop fuel (mask / 2) (reg / 2)

/-- The alignment loop of mmio_set_value, lines 130 to 138 of
src/mmio.c: while the low bit of the local mask copy is clear, shift
the mask right and the unsigned long value left one bit; the left
shift wraps modulo 2 to the 64.  Only the shifted value is used after
the loop. -/
def setLoop : Nat → Nat → Nat → Option Nat
  | 0, mask, value => if mask % 2 = 1 then some value else none
  | fuel + 1, mask, value =>
      if mask % 2 = 1 then some value
      else setLoop fuel (mask / 2) (value * 2 % 2 ^ 64)

/-- mmio_get_value of src/mmio.c.  A null parent or entry logs and
returns 0.  Otherwise the register is raw-read at the bank access
width, masked with the entry mask, and right-normalized by getLoop.
The hardware state hw is read-only here. -/
def mmio_get_value (fuel : Nat) (parent : Option MmioClassdev)
    (entry : Option MmioEntry) (hw : Nat) : Option Nat :=
  match parent, entry with
  | some p, some e => getLoop fuel e.mask (rawRead p.size hw &&& e.mask)
  | _, _ => some 0

/-- mmio_set_value of src/mmio.c.  Returns the pair of the C int
return value and the hardware state after the call; an error path
returns the input state unchanged because the C code reaches no write
on those paths.  none means the alignment loop did not terminate
within the fuel. -/
def mmio_set_value (fuel : Nat) (parent : Option MmioClassdev)
    (entry : Option MmioEntry) (value hw : Nat) : Option (Int × Nat) :=
  match parent, entry with
  | some p, some e =>
    let reg := rawRead p.size hw
    let sh := if value = 0 then some value else setLoop fuel e.mask value
    match sh with
    | none => none
    | some v2 =>
      if v2 &&& e.mask ≠ v2 then some (-75, hw)
      else some (0, rawWrite p.size (((reg &&& not32 e.mask) ||| v2) % 2 ^ 32))
  | _, _ => some (-22, hw)

/-- Fuel-driven count of the trailing zero bits of n; with fuel at
least n the fuel never runs out, see trailingZeros below. -/
def tzGo : Nat → Nat → Nat
  | 0, _ => 0
  | fuel + 1, n =>
      if n % 2 = 1 then 0
      else if n = 0 then 0
      else tzGo fuel (n / 2) + 1

/-- Number of trailing zero bits of n (0 for n = 0).  This is the
iteration count of both normalization loops and the shift distance the
spec calls trailing_zero_count(mask). -/
def trailingZeros (n : Nat) : Nat := tzGo n n

/-- Observable outcome of mmio_classdev_register: the returned int,
whether device_create was reached, the indices skipped for a zero
mask, the indices whose sysfs file was created and kept, the indices
passed to device_remove_file during the rollback (in call order), and
whether the bank was inserted into the global mmio_list. -/
structure RegResult where
  ret : Int
  presentCalled : Bool
  skipped : List Nat
  bound : List Nat
  removed : List Nat
  inserted : Bool
deriving DecidableEq

/-- The field-exposure for-loop of mmio_classdev_register, lines 232
to 250 of src/mmio.c.  cf gives the device_create_file outcome for
each index (0 is success).  Returns the skipped indices, the bound
indices, and on failure the failing index with its error code. -/
def bindLoop (cf : Nat → Int) : Nat → List MmioEntry →
    List Nat × List Nat × Option (Nat × Int)
  | _, [] => ([], [], none)
  | i, e :: rest =>
      if e.mask = 0 then
        let r := bindLoop cf (i + 1) rest
        (i :: r.1, r.2.1, r.2.2)
      else if cf i ≠ 0 then ([], [], some (i, cf i))
      else
        let r := bindLoop cf (i + 1) rest
        (r.1, i :: r.2.1, r.2.2)

/-- mmio_classdev_register of src/mmio.c.  devCreate is the outcome
of the external device_create call (its error is propagated
unchanged), cf the outcome of device_create_file per field index.  On
a binding failure at index k the C rollback loop removes the files of
indices k-1 down to 0, which is (List.range k).reverse. -/
def mmio_classdev_register (devCreate : Except Int Unit) (cf : Nat → Int)
    (c : MmioClassdev) : RegResult :=
  if c.base = 0 ∨ c.entries = none ∨ c.name = none then
    ⟨-22, false, [], [], [], false⟩
  else if c.size ≠ 1 ∧ c.size ≠ 2 ∧ c.size ≠ 4 then
    ⟨-22, false, [], [], [], false⟩
  else if c.size = 2 ∧ (c.base + c.offset) % 2 ≠ 0 then
    ⟨-22, false, [], [], [], false⟩
  else if c.size = 4 ∧ (c.base + c.offset) % 4 ≠ 0 then
    ⟨-22, false, [], [], [], false⟩
  else
    match devCreate with
    | .error err => ⟨err, true, [], [], [], false⟩
    | .ok _ =>
      let r := bindLoop cf 0 (c.entries.getD [])
      match r.2.2 with
      | some (k, ret) => ⟨ret, true, r.1, r.2.1, (List.range k).reverse, false⟩
      | none => ⟨0, true, r.1, r.2.1, [], true⟩

/-- The kernel isspace predicate used by mmio_value_store: space and
the control characters 9 to 13. -/
def isSpaceC (ch : Char) : Bool :=
  ch = ' ' ∨ ch = '\t' ∨ ch = '\n' ∨ ch = Char.ofNat 11 ∨
    ch = Char.ofNat 12 ∨ ch = '\r'

/-- Value parsed by simple_strtoul base 10 from the buffer: the
leading run of decimal digits folded into an unsigned long, each step
wrapping modulo 2 to the 64. -/
def parseDigitsVal (buf : List Char) : Nat :=
  (buf.takeWhile Char.isDigit).foldl
    (fun a ch => (a * 10 + (ch.toNat - 48)) % 2 ^ 64) 0

/-- Observable outcome of mmio_value_store: the returned ssize_t,
whether mmio_set_value was called and with which value argument, and
the hardware state afterwards. -/
structure StoreResult where
  ret : Int
  setCalled : Bool
  setArg : Nat
  hw : Nat
deriving DecidableEq

/-- mmio_value_store of src/mmio.c, the sysfs write handler.  The
entry whose attribute name matches is looked up; a missing entry
returns -EINVAL, a non-writable one -EPERM.  simple_strtoul consumes
the leading digits; the consumed count grows by one if the following
character is whitespace (one past the buffer reads the sysfs nul
terminator, embedded as the default Char.ofNat 0).  Only when the
count equals the buffer size is mmio_set_value called.  none means
the call diverged inside mmio_set_value. -/
def mmio_value_store (fuel : Nat) (c : MmioClassdev) (attrName : String)
    (buf : List Char) (hw : Nat) : Option StoreResult :=
  let state := parseDigitsVal buf
  let ndigits := (buf.takeWhile Char.isDigit).length
  match (c.entries.getD []).find? (fun e => e.name = attrName) with
  | none => some ⟨-22, false, 0, hw⟩
  | some e =>
    if e.flags &&& MMIO_ENTRY_WRITE = 0 then some ⟨-1, false, 0, hw⟩
    else
      let count := if isSpaceC (buf.getD ndigits (Char.ofNat 0))
                   then ndigits + 1 else ndigits
      if count = buf.length then
        match mmio_set_value fuel (some c) (some e) state hw with
        | none => none
        | some (r, hw2) =>
            some ⟨if r < 0 then r else (count : Int), true, state, hw2⟩
      else some ⟨-22, false, 0, hw⟩

/-! Helper lemmas about trailingZeros and the two normalization
loops. -/

lemma tzGo_congr : ∀ f g n : Nat, n ≤ f → n ≤ g → tzGo f n = tzGo g n := by
  intro f
  induction f with
  | zero =>
    intro g n hf _
    interval_cases n
    cases g with
    | zero => rfl
    | succ g => simp [tzGo]
  | succ f ih =>
    intro g n hf hg
    cases g with
    | zero =>
      interval_cases n
      simp [tzGo]
    | succ g =>
      simp only [tzGo]
      by_cases h1 : n % 2 = 1
      · simp [h1]
      · by_cases h0 : n = 0
        · simp [h0]
        · simp only [h1, h0, if_false]
          have hlt : n / 2 < n := Nat.div_lt_self (Nat.pos_of_ne_zero h0) one_lt_two
          rw [ih g (n / 2) (by omega) (by omega)]

lemma trailingZeros_odd {n : Nat} (h : n % 2 = 1) : trailingZeros n = 0 := by
  have hn : n ≠ 0 := by omega
  obtain ⟨m, rfl⟩ : ∃ m, n = m + 1 := ⟨n - 1, by omega⟩
  simp [trailingZeros, tzGo, h]

lemma trailingZeros_even {n : Nat} (hn : n ≠ 0) (h : n % 2 = 0) :
    trailingZeros n = trailingZeros (n / 2) + 1 := by
  obtain ⟨m, rfl⟩ : ∃ m, n = m + 1 := ⟨n - 1, by omega⟩
  have h1 : (m + 1) % 2 ≠ 1 := by omega
  simp only [trailingZeros, tzGo, if_neg h1, if_neg hn]
  have : (m + 1) / 2 ≤ m := by omega
  rw [tzGo_congr m ((m + 1) / 2) ((m + 1) / 2) this le_rfl]

lemma two_pow_trailingZeros_dvd : ∀ n : Nat, 2 ^ trailingZeros n ∣ n := by
  intro n
  induction n using Nat.strong_induction_on with
  | _ n ih =>
    rcases Nat.eq_zero_or_pos n with h0 | hp
    · subst h0; simp
    · by_cases h1 : n % 2 = 1
      · simp [trailingZeros_odd h1]
      · have h2 : n % 2 = 0 := by omega
        have hn : n ≠ 0 := by omega
        rw [trailingZeros_even hn h2]
        have hlt : n / 2 < n := Nat.div_lt_self hp one_lt_two
        obtain ⟨c, hc⟩ := ih (n / 2) hlt
        refine ⟨c, ?_⟩
        calc n = 2 * (n / 2) := by omega
          _ = 2 * (2 ^ trailingZeros (n / 2) * c) := by rw [← hc]
          _ = 2 ^ (trailingZeros (n / 2) + 1) * c := by rw [pow_succ]; ring

lemma trailingZeros_lt_of_lt_pow {n k : Nat} (hn : n ≠ 0) (h : n < 2 ^ k) :
    trailingZeros n < k := by
  have hd := two_pow_trailingZeros_dvd n
  have hle : 2 ^ trailingZeros n ≤ n := Nat.le_of_dvd (Nat.pos_of_ne_zero hn) hd
  have : (2 : Nat) ^ trailingZeros n < 2 ^ k := lt_of_le_of_lt hle h
  exact (Nat.pow_lt_pow_iff_right one_lt_two).mp this

lemma getLoop_eq : ∀ fuel mask reg : Nat, mask ≠ 0 →
    trailingZeros mask ≤ fuel →
    getLoop fuel mask reg = some (reg / 2 ^ trailingZeros mask) := by
  intro fuel
  induction fuel with
  | zero =>
    intro mask reg hm hf
    have ht : trailingZeros mask = 0 := by omega
    have h1 : mask % 2 = 1 := by
      by_contra h
      have h2 : mask % 2 = 0 := by omega
      rw [trailingZeros_even hm h2] at ht
      omega
    simp [getLoop, h1, ht]
  | succ fuel ih =>
    intro mask reg hm hf
    by_cases h1 : mask % 2 = 1
    · simp [getLoop, h1, trailingZeros_odd h1]
    · have h2 : mask % 2 = 0 := by omega
      have hhalf : mask / 2 ≠ 0 := by omega
      have htz := trailingZeros_even hm h2
      simp only [getLoop, h1, if_false]
      rw [ih (mask / 2) (reg / 2) hhalf (by omega)]
      rw [htz, Nat.div_div_eq_div_mul, pow_succ, Nat.mul_comm]

lemma getLoop_zero_mask : ∀ fuel reg : Nat, getLoop fuel 0 reg = none := by
  intro fuel
  induction fuel with
  | zero => intro reg; simp [getLoop]
  | succ fuel ih => intro reg; simpa [getLoop] using ih (reg / 2)

lemma setLoop_eq : ∀ fuel mask v : Nat, mask ≠ 0 → v < 2 ^ 64 →
    trailingZeros mask ≤ fuel →
    setLoop fuel mask v = some (v * 2 ^ trailingZeros mask % 2 ^ 64) := by
  intro fuel
  induction fuel with
  | zero =>
    intro mask v hm hv hf
    have ht : trailingZeros mask = 0 := by omega
    have h1 : mask % 2 = 1 := by
      by_contra h
      have h2 : mask % 2 = 0 := by omega
      rw [trailingZeros_even hm h2] at ht
      omega
    simp only [setLoop, h1, if_pos, ht, pow_zero, Nat.mul_one]
    rw [Nat.mod_eq_of_lt hv]
  | succ fuel ih =>
    intro mask v hm hv hf
    by_cases h1 : mask % 2 = 1
    · simp only [setLoop, h1, if_pos, trailingZeros_odd h1, pow_zero,
        Nat.mul_one]
      rw [Nat.mod_eq_of_lt hv]
    · have h2 : mask % 2 = 0 := by omega
      have hhalf : mask / 2 ≠ 0 := by omega
      have htz := trailingZeros_even hm h2
      simp only [setLoop, h1, if_false]
      rw [ih (mask / 2) (v * 2 % 2 ^ 64) hhalf (Nat.mod_lt _ (by norm_num))
        (by omega)]
      congr 1
      rw [htz, Nat.mod_mul_mod, pow_succ]
      ring_nf

lemma setLoop_isSome : ∀ fuel mask v : Nat, mask ≠ 0 →
    trailingZeros mask ≤ fuel → (setLoop fuel mask v).isSome = true := by
  intro fuel
  induction fuel with
  | zero =>
    intro mask v hm hf
    have ht : trailingZeros mask = 0 := by omega
    have h1 : mask % 2 = 1 := by
      by_contra h
      have h2 : mask % 2 = 0 := by omega
      rw [trailingZeros_even hm h2] at ht
      omega
    simp [setLoop, h1]
  | succ fuel ih =>
    intro mask v hm hf
    by_cases h1 : mask % 2 = 1
    · simp [setLoop, h1]
    · have h2 : mask % 2 = 0 := by omega
      have hhalf : mask / 2 ≠ 0 := by omega
      have htz := trailingZeros_even hm h2
      simp only [setLoop, h1, if_false]
      exact ih (mask / 2) (v * 2 % 2 ^ 64) hhalf (by omega)

lemma setLoop_zero_mask : ∀ fuel v : Nat, setLoop fuel 0 v = none := by
  intro fuel
  induction fuel with
  | zero => intro v; simp [setLoop]
  | succ fuel ih => intro v; simpa [setLoop] using ih (v * 2 % 2 ^ 64)

lemma regWidthBits_le (s : Nat) : regWidthBits s ≤ 32 := by
  unfold regWidthBits
  split
  · omega
  · split <;> omega

lemma testBit_of_and_mask {s m : Nat} (hs : s &&& m = s) {i : Nat}
    (h : m.testBit i = false) : s.testBit i = false := by
  have h2 : (s &&& m).testBit i = s.testBit i := by rw [hs]
  rw [Nat.testBit_land, h, Bool.and_false] at h2
  exact h2.symm

/-- After a read-modify-write of a value s whose bits lie inside the
mask, re-reading at the bank width and masking recovers exactly s,
provided the mask itself fits the access width w. -/
lemma maskedWrite_and_mask (raw s mask w : Nat) (hw32 : w ≤ 32)
    (hmask : mask < 2 ^ w) (hs : s &&& mask = s) :
    ((raw &&& not32 mask ||| s) % 2 ^ 32 % 2 ^ w) &&& mask = s := by
  have hm32 : mask < 2 ^ 32 :=
    lt_of_lt_of_le hmask (Nat.pow_le_pow_right (by norm_num) hw32)
  have hsle : s ≤ mask := hs ▸ Nat.and_le_right
  apply Nat.eq_of_testBit_eq
  intro i
  simp only [Nat.testBit_land, Nat.testBit_mod_two_pow, Nat.testBit_lor,
    not32, Nat.testBit_xor, Nat.testBit_two_pow_sub_one,
    Nat.mod_eq_of_lt hm32]
  by_cases hiw : i < w
  · have hi32 : i < 32 := lt_of_lt_of_le hiw hw32
    cases hmi : mask.testBit i
    · rw [testBit_of_and_mask hs hmi]
      simp
    · simp [hmi, hiw, hi32]
  · have hsw : s < 2 ^ w := lt_of_le_of_lt hsle hmask
    have hsi : s.testBit i = false :=
      Nat.testBit_lt_two_pow (lt_of_lt_of_le hsw
        (Nat.pow_le_pow_right (by norm_num) (le_of_not_lt hiw)))
    simp [hiw, hsi]

/-- Bits outside the mask survive the read-modify-write untouched, as
seen at the access width w. -/
lemma maskedWrite_frame (raw s mask w i : Nat) (hw32 : w ≤ 32)
    (hm32 : mask < 2 ^ 32) (hraw : raw < 2 ^ w) (hs : s &&& mask = s)
    (hi : mask.testBit i = false) :
    ((raw &&& not32 mask ||| s) % 2 ^ 32 % 2 ^ w).testBit i =
      raw.testBit i := by
  have hsi : s.testBit i = false := testBit_of_and_mask hs hi
  simp only [Nat.testBit_mod_two_pow, Nat.testBit_lor, Nat.testBit_land,
    not32, Nat.testBit_xor, Nat.testBit_two_pow_sub_one,
    Nat.mod_eq_of_lt hm32, hi, hsi]
  by_cases hiw : i < w
  · have hi32 : i < 32 := lt_of_lt_of_le hiw hw32
    simp [hiw, hi32]
  · have hri : raw.testBit i = false :=
      Nat.testBit_lt_two_pow (lt_of_lt_of_le hraw
        (Nat.pow_le_pow_right (by norm_num) (le_of_not_lt hiw)))
    simp [hiw, hri]

/-- Unfolding of mmio_set_value once the alignment-loop outcome is
known. -/
lemma mmio_set_value_eq (fuel : Nat) (p : MmioClassdev) (e : MmioEntry)
    (v hw : Nat) {σ : Nat}
    (hσ : (if v = 0 then some v else setLoop fuel e.mask v) = some σ) :
    mmio_set_value fuel (some p) (some e) v hw =
      if σ &&& e.mask ≠ σ then some (-75, hw)
      else some (0, rawWrite p.size
        ((rawRead p.size hw &&& not32 e.mask ||| σ) % 2 ^ 32)) := by
  simp only [mmio_set_value, hσ]

example : trailingZeros 256 = 8 := by decide
example : trailingZeros 1 = 0 := by decide
example : trailingZeros 0 = 0 := by decide
example : getLoop 31 (256 : Nat) 512 = some 2 := by decide
example : setLoop 31 (6 : Nat) 3 = some 6 := by decide
example : mmio_get_value 31 none none 5 = some 0 := by decide
example :
    mmio_set_value 31 (some ⟨some "b", 4, some [], 0, 1⟩)
      (some ⟨"f", 65280, 3⟩) 42 0 = some (0, 10752) := by decide
example :
    mmio_get_value 31 (some ⟨some "b", 4, some [], 0, 1⟩)
      (some ⟨"f", 65280, 3⟩) 10752 = some 42 := by decide
example :
    mmio_classdev_register (.ok ()) (fun _ => 0)
      ⟨some "b", 3, some [], 0, 1⟩ =
      ⟨-22, false, [], [], [], false⟩ := by decide
example :
    mmio_classdev_register (.ok ()) (fun i => if i = 1 then -12 else 0)
      ⟨some "b", 1, some [⟨"a", 1, 3⟩, ⟨"c", 2, 3⟩, ⟨"d", 4, 3⟩], 0, 1⟩ =
      ⟨-12, true, [], [0], [0], false⟩ := by decide
example :
    mmio_value_store 31 ⟨some "b", 1, some [⟨"a", 3, 3⟩], 0, 1⟩ "a"
      ['2', '\n'] 0 = some ⟨2, true, 2, 2⟩ := by decide
example :
    mmio_value_store 31 ⟨some "b", 1, some [⟨"a", 3, 3⟩], 0, 1⟩ "a"
      ['2', ' ', 'x'] 9 = some ⟨-22, false, 0, 9⟩ := by decide

/-! Claim theorems. -/

/-- Claim C4: for every non-null bank and every field with non-zero
mask, get returns the raw register value ANDed with the field mask and
right-shifted by the trailing zero count of the mask. -/
theorem c4_get_normalized (p : MmioClassdev) (e : MmioEntry) (hw : Nat)
    (hm : e.mask ≠ 0) (hm32 : e.mask < 2 ^ 32) :
    mmio_get_value 31 (some p) (some e) hw =
      some ((rawRead p.size hw &&& e.mask) >>> trailingZeros e.mask) := by
  have ht : trailingZeros e.mask ≤ 31 := by
    have := trailingZeros_lt_of_lt_pow hm hm32
    omega
  simp only [mmio_get_value]
  rw [getLoop_eq 31 e.mask _ hm ht, Nat.shiftRight_eq_div_pow]

/-- Closed instance of c4_get_normalized: bank of width 4, field mask
0xFF00, register value 0x2A2A yields bits 8..15 right-aligned. -/
theorem c4_witness :
    mmio_get_value 31 (some ⟨some "b", 4, some [], 0, 1⟩)
      (some ⟨"f", 65280, 3⟩) 10794 =
      some ((rawRead 4 10794 &&& 65280) >>> trailingZeros 65280) :=
  c4_get_normalized ⟨some "b", 4, some [], 0, 1⟩ ⟨"f", 65280, 3⟩ 10794
    (by decide) (by decide)

/-- Claim C1 (amended): the set-then-get round trip returns the value
written, for every field whose non-zero mask additionally lies inside
the bank access width, and for every value fitting the field width.
The hardware state hw2 written by set is re-read by get, which models
the assumption that the raw read returns the value last written. -/
theorem c1_roundtrip (p : MmioClassdev) (e : MmioEntry) (v hw : Nat)
    (hm : e.mask ≠ 0) (hmw : e.mask < 2 ^ regWidthBits p.size)
    (hfit : (v <<< trailingZeros e.mask) &&& e.mask =
      v <<< trailingZeros e.mask) :
    ∃ hw2, mmio_set_value 31 (some p) (some e) v hw = some (0, hw2) ∧
      mmio_get_value 31 (some p) (some e) hw2 = some v := by
  have hw32 : regWidthBits p.size ≤ 32 := regWidthBits_le p.size
  have hm32 : e.mask < 2 ^ 32 :=
    lt_of_lt_of_le hmw (Nat.pow_le_pow_right (by norm_num) hw32)
  have ht31 : trailingZeros e.mask ≤ 31 := by
    have := trailingZeros_lt_of_lt_pow hm hm32
    omega
  have hsval : v <<< trailingZeros e.mask = v * 2 ^ trailingZeros e.mask :=
    Nat.shiftLeft_eq v _
  have hsle : v * 2 ^ trailingZeros e.mask ≤ e.mask := by
    rw [← hsval]
    exact hfit ▸ Nat.and_le_right
  have hs64 : v * 2 ^ trailingZeros e.mask < 2 ^ 64 := by
    have : (2 : Nat) ^ 32 < 2 ^ 64 := by norm_num
    omega
  have hv64 : v < 2 ^ 64 := by
    have hvle : v ≤ v * 2 ^ trailingZeros e.mask :=
      Nat.le_mul_of_pos_right v (Nat.pos_pow_of_pos _ (by norm_num))
    omega
  have hσ : (if v = 0 then some v
      else setLoop 31 e.mask v) = some (v * 2 ^ trailingZeros e.mask) := by
    by_cases h0 : v = 0
    · subst h0; simp
    · rw [if_neg h0, setLoop_eq 31 e.mask v hm hv64 ht31,
        Nat.mod_eq_of_lt hs64]
  have hfit2 : v * 2 ^ trailingZeros e.mask &&& e.mask =
      v * 2 ^ trailingZeros e.mask := by rw [← hsval]; exact hfit
  refine ⟨rawWrite p.size
    ((rawRead p.size hw &&& not32 e.mask |||
      v * 2 ^ trailingZeros e.mask) % 2 ^ 32), ?_, ?_⟩
  · rw [mmio_set_value_eq 31 p e v hw hσ, if_neg (by simp [hfit2])]
  · simp only [mmio_get_value, rawWrite, rawRead, Nat.mod_mod_of_dvd _
      (dvd_refl _)]
    rw [maskedWrite_and_mask (hw % 2 ^ regWidthBits p.size)
      (v * 2 ^ trailingZeros e.mask) e.mask (regWidthBits p.size)
      hw32 hmw hfit2]
    rw [getLoop_eq 31 e.mask _ hm ht31,
      Nat.mul_div_cancel v (Nat.pos_pow_of_pos _ (by norm_num))]

/-- Closed instance of c1_roundtrip: width-1 bank, mask 0xFF, value 7
written over register content 0x55 and read back. -/
theorem c1_witness :
    ∃ hw2, mmio_set_value 31 (some ⟨some "b", 1, some [], 0, 1⟩)
        (some ⟨"f", 255, 3⟩) 7 85 = some (0, hw2) ∧
      mmio_get_value 31 (some ⟨some "b", 1, some [], 0, 1⟩)
        (some ⟨"f", 255, 3⟩) hw2 = some 7 :=
  c1_roundtrip ⟨some "b", 1, some [], 0, 1⟩ ⟨"f", 255, 3⟩ 7 85
    (by decide) (by decide) (by decide)

/-- Counterexample to claim C1 as stated: the bank below passes every
validation of mmio_classdev_register (so it is a registered bank), its
field has the non-zero mask 0x100, and the value 1 fits the field in
the sense of the claim, yet set followed by get returns 0, not 1,
because the mask lies outside the 8-bit access width of the size-1
bank and the write truncates the field away. -/
theorem c1_counterexample :
    (mmio_classdev_register (.ok ()) (fun _ => 0)
        ⟨some "b", 1, some [⟨"f", 256, 3⟩], 0, 1⟩).ret = 0 ∧
    (mmio_classdev_register (.ok ()) (fun _ => 0)
        ⟨some "b", 1, some [⟨"f", 256, 3⟩], 0, 1⟩).inserted = true ∧
    (256 : Nat) ≠ 0 ∧
    (1 <<< trailingZeros 256) &&& 256 = 1 <<< trailingZeros 256 ∧
    mmio_set_value 31 (some ⟨some "b", 1, some [⟨"f", 256, 3⟩], 0, 1⟩)
      (some ⟨"f", 256, 3⟩) 1 0 = some (0, 0) ∧
    mmio_get_value 31 (some ⟨some "b", 1, some [⟨"f", 256, 3⟩], 0, 1⟩)
      (some ⟨"f", 256, 3⟩) 0 = some 0 ∧
    (0 : Nat) ≠ 1 := by
  refine ⟨by decide, by decide, by decide, by decide, by decide,
    by decide, by decide⟩

/-- Claim C2 (amended): for a field with non-zero mask, set fails with
Overflow exactly when the non-zero value, left-shifted by the trailing
zero count of the mask in unsigned long arithmetic, no longer
satisfies shifted AND mask equals shifted; the error pair carries the
unchanged register state. -/
theorem c2_overflow_iff (p : MmioClassdev) (e : MmioEntry) (v hw : Nat)
    (hv : v < 2 ^ 64) (hm : e.mask ≠ 0) (hm32 : e.mask < 2 ^ 32) :
    mmio_set_value 31 (some p) (some e) v hw = some (-75, hw) ↔
      v ≠ 0 ∧ ¬(v * 2 ^ trailingZeros e.mask % 2 ^ 64 &&& e.mask =
        v * 2 ^ trailingZeros e.mask % 2 ^ 64) := by
  have ht31 : trailingZeros e.mask ≤ 31 := by
    have := trailingZeros_lt_of_lt_pow hm hm32
    omega
  by_cases h0 : v = 0
  · subst h0
    rw [@mmio_set_value_eq 31 p e 0 hw 0 (by simp)]
    rw [if_neg (not_ne_iff.mpr (Nat.zero_and e.mask))]
    constructor
    · intro h
      exfalso
      have := (Option.some.injEq _ _).mp h
      have h1 : (0 : Int) = -75 := congrArg Prod.fst this
      omega
    · intro h
      exact absurd rfl h.1
  · have hσ : (if v = 0 then some v else setLoop 31 e.mask v) =
        some (v * 2 ^ trailingZeros e.mask % 2 ^ 64) := by
      rw [if_neg h0, setLoop_eq 31 e.mask v hm hv ht31]
    rw [mmio_set_value_eq 31 p e v hw hσ]
    by_cases hov : v * 2 ^ trailingZeros e.mask % 2 ^ 64 &&& e.mask =
        v * 2 ^ trailingZeros e.mask % 2 ^ 64
    · rw [if_neg (not_ne_iff.mpr hov)]
      constructor
      · intro h
        exfalso
        have := (Option.some.injEq _ _).mp h
        have h1 : (0 : Int) = -75 := congrArg Prod.fst this
        omega
      · intro h
        exact absurd hov h.2
    · rw [if_pos hov]
      exact ⟨fun _ => ⟨h0, hov⟩, fun _ => rfl⟩

/-- Closed instance of c2_overflow_iff: mask 0x3, value 4 does not fit
the two-bit field and the call fails with -EOVERFLOW leaving the
register value 5 in place. -/
theorem c2_witness :
    mmio_set_value 31 (some ⟨some "b", 1, some [], 0, 1⟩)
        (some ⟨"f", 3, 3⟩) 4 5 = some (-75, 5) ↔
      (4 : Nat) ≠ 0 ∧ ¬(4 * 2 ^ trailingZeros 3 % 2 ^ 64 &&& 3 =
        4 * 2 ^ trailingZeros 3 % 2 ^ 64) :=
  c2_overflow_iff ⟨some "b", 1, some [], 0, 1⟩ ⟨"f", 3, 3⟩ 4 5
    (by decide) (by decide) (by decide)

/-- Counterexample to claim C2 as stated: the claim covers every
non-null bank and field, but on a field whose mask is zero and a
non-zero value the alignment loop of mmio_set_value never terminates,
so the call does not fail with Overflow; even with fuel 64, twice the
iterations any 32-bit mask could need, the embedded loop is still
running. -/
theorem c2_counterexample :
    (⟨"f", 0, 3⟩ : MmioEntry).mask = 0 ∧
    mmio_set_value 64 (some ⟨some "b", 1, some [], 0, 1⟩)
      (some ⟨"f", 0, 3⟩) 1 0 = none := by
  refine ⟨by decide, ?_⟩
  simp only [mmio_set_value, if_neg (by omega : ¬(1 : Nat) = 0),
    setLoop_zero_mask]

/-- Claim C3: a successful set changes no register bit outside the
field mask: every bit position where the mask is clear reads back from
the written state exactly as it stood in the raw register value read
at the start of the call. -/
theorem c3_frame (fuel : Nat) (p : MmioClassdev) (e : MmioEntry)
    (v hw hw2 : Nat) (hm32 : e.mask < 2 ^ 32)
    (hset : mmio_set_value fuel (some p) (some e) v hw = some (0, hw2)) :
    ∀ i, e.mask.testBit i = false →
      hw2.testBit i = (rawRead p.size hw).testBit i := by
  intro i hi
  cases hσ : (if v = 0 then some v else setLoop fuel e.mask v) with
  | none =>
    rw [mmio_set_value, hσ] at hset
    simp at hset
  | some σ =>
    rw [mmio_set_value_eq fuel p e v hw hσ] at hset
    by_cases hov : σ &&& e.mask ≠ σ
    · rw [if_pos hov] at hset
      have := (Option.some.injEq _ _).mp hset
      have h1 : (-75 : Int) = 0 := congrArg Prod.fst this
      omega
    · rw [if_neg hov] at hset
      have hs : σ &&& e.mask = σ := not_ne_iff.mp hov
      have := (Option.some.injEq _ _).mp hset
      have h2 : rawWrite p.size
          ((rawRead p.size hw &&& not32 e.mask ||| σ) % 2 ^ 32) = hw2 :=
        congrArg Prod.snd this
      rw [← h2, rawWrite]
      exact maskedWrite_frame (rawRead p.size hw) σ e.mask
        (regWidthBits p.size) i (regWidthBits_le p.size) hm32
        (Nat.mod_lt _ (Nat.pos_pow_of_pos _ (by norm_num))) hs hi

/-- Closed instance of c3_frame: width-4 bank, mask 0xFF00, writing 42
over register value 0x00FF00FF succeeds with value 0x00FF2AFF and
leaves bit 0, which lies outside the mask, as it was. -/
theorem c3_witness :
    mmio_set_value 31 (some ⟨some "b", 4, some [], 0, 1⟩)
        (some ⟨"f", 65280, 3⟩) 42 16711935 = some (0, 16722687) ∧
      (16722687 : Nat).testBit 0 = (rawRead 4 16711935).testBit 0 :=
  ⟨by decide, c3_frame 31 ⟨some "b", 4, some [], 0, 1⟩ ⟨"f", 65280, 3⟩ 42
    16711935 16722687 (by decide) (by decide) 0 (by decide)⟩

/-- Claim C8: a null bank or field makes get log and return 0 while
set fails with -EINVAL and leaves the hardware state untouched. -/
theorem c8_null_asymmetry (fuel : Nat) (op : Option MmioClassdev)
    (oe : Option MmioEntry) (v hw : Nat) (h : op = none ∨ oe = none) :
    mmio_get_value fuel op oe hw = some 0 ∧
      mmio_set_value fuel op oe v hw = some (-22, hw) := by
  rcases h with h | h
  · subst h
    cases oe <;> exact ⟨rfl, rfl⟩
  · subst h
    cases op <;> exact ⟨rfl, rfl⟩

/-- Closed instance of c8_null_asymmetry at a null field pointer. -/
theorem c8_witness :
    mmio_get_value 31 (some ⟨some "b", 1, some [], 0, 1⟩) none 9 =
        some 0 ∧
      mmio_set_value 31 (some ⟨some "b", 1, some [], 0, 1⟩) none 7 9 =
        some (-22, 9) :=
  c8_null_asymmetry 31 (some ⟨some "b", 1, some [], 0, 1⟩) none 7 9
    (Or.inr rfl)

/-- Claim C10: with a non-zero 32-bit mask both normalization loops
finish within 31 iterations, set also always finishes for the value 0,
and with a zero mask the get loop, and the set loop on a non-zero
value, never finish no matter how much fuel they get. -/
theorem c10_loop_totality :
    (∀ p e hw, e.mask ≠ 0 → e.mask < 2 ^ 32 →
      (mmio_get_value 31 (some p) (some e) hw).isSome = true) ∧
    (∀ p e v hw, e.mask ≠ 0 → e.mask < 2 ^ 32 →
      (mmio_set_value 31 (some p) (some e) v hw).isSome = true) ∧
    (∀ fuel p e hw,
      (mmio_set_value fuel (some p) (some e) 0 hw).isSome = true) ∧
    (∀ fuel p e hw, e.mask = 0 →
      mmio_get_value fuel (some p) (some e) hw = none) ∧
    (∀ fuel p e v hw, e.mask = 0 → v ≠ 0 →
      mmio_set_value fuel (some p) (some e) v hw = none) := by
  refine ⟨?_, ?_, ?_, ?_, ?_⟩
  · intro p e hw hm hm32
    have ht31 : trailingZeros e.mask ≤ 31 := by
      have := trailingZeros_lt_of_lt_pow hm hm32
      omega
    simp [mmio_get_value, getLoop_eq 31 e.mask _ hm ht31]
  · intro p e v hw hm hm32
    have ht31 : trailingZeros e.mask ≤ 31 := by
      have := trailingZeros_lt_of_lt_pow hm hm32
      omega
    by_cases h0 : v = 0
    · subst h0
      rw [@mmio_set_value_eq 31 p e 0 hw 0 (by simp)]
      split <;> simp
    · obtain ⟨σ, hσ⟩ := Option.isSome_iff_exists.mp
        (setLoop_isSome 31 e.mask v hm ht31)
      rw [mmio_set_value_eq 31 p e v hw (by rw [if_neg h0]; exact hσ)]
      split <;> simp
  · intro fuel p e hw
    rw [@mmio_set_value_eq fuel p e 0 hw 0 (by simp)]
    rw [if_neg (not_ne_iff.mpr (Nat.zero_and e.mask))]
    simp
  · intro fuel p e hw hm
    simp [mmio_get_value, hm, getLoop_zero_mask]
  · intro fuel p e v hw hm hv
    simp only [mmio_set_value, if_neg hv, hm, setLoop_zero_mask]

/-- Closed instances of the five parts of c10_loop_totality. -/
theorem c10_witness :
    (mmio_get_value 31 (some ⟨some "b", 1, some [], 0, 1⟩)
      (some ⟨"f", 6, 3⟩) 9).isSome = true ∧
    (mmio_set_value 31 (some ⟨some "b", 1, some [], 0, 1⟩)
      (some ⟨"f", 6, 3⟩) 2 9).isSome = true ∧
    (mmio_set_value 0 (some ⟨some "b", 1, some [], 0, 1⟩)
      (some ⟨"f", 6, 3⟩) 0 9).isSome = true ∧
    mmio_get_value 99 (some ⟨some "b", 1, some [], 0, 1⟩)
      (some ⟨"f", 0, 3⟩) 9 = none ∧
    mmio_set_value 99 (some ⟨some "b", 1, some [], 0, 1⟩)
      (some ⟨"f", 0, 3⟩) 2 9 = none :=
  ⟨c10_loop_totality.1 _ _ 9 (by decide) (by decide),
   c10_loop_totality.2.1 _ _ 2 9 (by decide) (by decide),
   c10_loop_totality.2.2.1 0 _ _ 9,
   c10_loop_totality.2.2.2.1 99 _ _ 9 (by decide),
   c10_loop_totality.2.2.2.2 99 _ _ 2 9 (by decide) (by decide)⟩

/-- Claim C5: every validation failure of mmio_classdev_register
returns -EINVAL before the presentation object is created, before any
field is bound and before the bank is inserted. -/
theorem c5_validation (dc : Except Int Unit) (cf : Nat → Int)
    (c : MmioClassdev)
    (h : c.base = 0 ∨ c.entries = none ∨ c.name = none ∨
      (c.size ≠ 1 ∧ c.size ≠ 2 ∧ c.size ≠ 4) ∨
      (c.size = 2 ∧ (c.base + c.offset) % 2 ≠ 0) ∨
      (c.size = 4 ∧ (c.base + c.offset) % 4 ≠ 0)) :
    mmio_classdev_register dc cf c = ⟨-22, false, [], [], [], false⟩ := by
  unfold mmio_classdev_register
  split
  · rfl
  split
  · rfl
  split
  · rfl
  split
  · rfl
  exfalso
  tauto

/-- Closed instance of c5_validation: width 2 at an odd address. -/
theorem c5_witness :
    mmio_classdev_register (.ok ()) (fun _ => 0)
      ⟨some "b", 2, some [⟨"f", 1, 3⟩], 2, 1⟩ =
      ⟨-22, false, [], [], [], false⟩ :=
  c5_validation (.ok ()) (fun _ => 0) ⟨some "b", 2, some [⟨"f", 1, 3⟩], 2, 1⟩
    (by right; right; right; right; left; exact ⟨rfl, by decide⟩)

/-- Unfolding of mmio_classdev_register when every validation passes
and device_create succeeds. -/
lemma register_valid_ok (cf : Nat → Int) (c : MmioClassdev)
    (es : List MmioEntry) (hes : c.entries = some es) (hb : c.base ≠ 0)
    (hn : c.name ≠ none) (hs : c.size = 1 ∨ c.size = 2 ∨ c.size = 4)
    (h2 : c.size = 2 → (c.base + c.offset) % 2 = 0)
    (h4 : c.size = 4 → (c.base + c.offset) % 4 = 0) :
    mmio_classdev_register (.ok ()) cf c =
      match (bindLoop cf 0 es).2.2 with
      | some (k, ret) => ⟨ret, true, (bindLoop cf 0 es).1,
          (bindLoop cf 0 es).2.1, (List.range k).reverse, false⟩
      | none => ⟨0, true, (bindLoop cf 0 es).1,
          (bindLoop cf 0 es).2.1, [], true⟩ := by
  have hA : ¬(c.base = 0 ∨ c.entries = none ∨ c.name = none) := by
    push_neg
    refine ⟨hb, ?_, hn⟩
    rw [hes]
    exact Option.some_ne_none es
  have hB : ¬(c.size ≠ 1 ∧ c.size ≠ 2 ∧ c.size ≠ 4) := by
    rcases hs with h | h | h <;> simp [h]
  have hC : ¬(c.size = 2 ∧ (c.base + c.offset) % 2 ≠ 0) := by
    rintro ⟨ha, hm⟩
    exact hm (h2 ha)
  have hD : ¬(c.size = 4 ∧ (c.base + c.offset) % 4 ≠ 0) := by
    rintro ⟨ha, hm⟩
    exact hm (h4 ha)
  unfold mmio_classdev_register
  rw [if_neg hA, if_neg hB, if_neg hC, if_neg hD, hes]
  rfl

/-- Every index collected by bindLoop starting at i is at least i. -/
lemma bindLoop_mem_ge (cf : Nat → Int) : ∀ es i,
    (∀ j ∈ (bindLoop cf i es).1, i ≤ j) ∧
    (∀ j ∈ (bindLoop cf i es).2.1, i ≤ j) := by
  intro es
  induction es with
  | nil => intro i; simp [bindLoop]
  | cons e rest ih =>
    intro i
    rcases hbr : bindLoop cf (i + 1) rest with ⟨sk2, bd2, st2⟩
    have ih1 := (ih (i + 1)).1
    have ih2 := (ih (i + 1)).2
    rw [hbr] at ih1 ih2
    simp only [bindLoop, hbr]
    split_ifs with hm hc
    · refine ⟨?_, ?_⟩
      · intro j hj
        rcases List.mem_cons.mp hj with rfl | hj
        · exact le_rfl
        · exact le_of_lt (ih1 j hj)
      · intro j hj
        exact le_of_lt (ih2 j hj)
    · simp
    · refine ⟨?_, ?_⟩
      · intro j hj
        exact le_of_lt (ih1 j hj)
      · intro j hj
        rcases List.mem_cons.mp hj with rfl | hj
        · exact le_rfl
        · exact le_of_lt (ih2 j hj)

/-- On a bindLoop failure the failing index bounds from above every
index that was bound before it, and is at least the start index. -/
lemma bindLoop_fail_bounds (cf : Nat → Int) : ∀ es i sk bd k r,
    bindLoop cf i es = (sk, bd, some (k, r)) →
    i ≤ k ∧ ∀ j ∈ bd, i ≤ j ∧ j < k := by
  intro es
  induction es with
  | nil =>
    intro i sk bd k r h
    simp [bindLoop] at h
  | cons e rest ih =>
    intro i sk bd k r h
    rcases hbr : bindLoop cf (i + 1) rest with ⟨sk2, bd2, st2⟩
    simp only [bindLoop, hbr] at h
    split_ifs at h with hm hc
    · simp only [Prod.mk.injEq] at h
      obtain ⟨h1, h2, h3⟩ := h
      obtain ⟨hik, hbd⟩ := ih (i + 1) sk2 bd2 k r (by rw [hbr, h3])
      refine ⟨by omega, ?_⟩
      intro j hj
      rw [← h2] at hj
      obtain ⟨hj1, hj2⟩ := hbd j hj
      exact ⟨by omega, hj2⟩
    · simp only [Prod.mk.injEq, Option.some.injEq] at h
      obtain ⟨h1, h2, h3, h4⟩ := h
      refine ⟨by omega, ?_⟩
      intro j hj
      rw [← h2] at hj
      simp at hj
    · simp only [Prod.mk.injEq] at h
      obtain ⟨h1, h2, h3⟩ := h
      obtain ⟨hik, hbd⟩ := ih (i + 1) sk2 bd2 k r (by rw [hbr, h3])
      refine ⟨by omega, ?_⟩
      intro j hj
      rw [← h2] at hj
      rcases List.mem_cons.mp hj with rfl | hj
      · exact ⟨le_rfl, by omega⟩
      · obtain ⟨hj1, hj2⟩ := hbd j hj
        exact ⟨by omega, hj2⟩

/-- Claim C6: when binding the exposure of field k fails while every
validation passed, registration returns the binding failure, does not
insert the bank, and removes the files of indices k-1 down to 0 — a
strictly decreasing removal order covering every index bound so far. -/
theorem c6_rollback (cf : Nat → Int) (c : MmioClassdev)
    (es : List MmioEntry) (sk bd : List Nat) (k : Nat) (r : Int)
    (hes : c.entries = some es) (hb : c.base ≠ 0) (hn : c.name ≠ none)
    (hs : c.size = 1 ∨ c.size = 2 ∨ c.size = 4)
    (h2 : c.size = 2 → (c.base + c.offset) % 2 = 0)
    (h4 : c.size = 4 → (c.base + c.offset) % 4 = 0)
    (hbl : bindLoop cf 0 es = (sk, bd, some (k, r))) :
    mmio_classdev_register (.ok ()) cf c =
      ⟨r, true, sk, bd, (List.range k).reverse, false⟩ ∧
    (∀ j ∈ bd, j < k) ∧
    (∀ j ∈ bd, j ∈ (List.range k).reverse) ∧
    List.Pairwise (· > ·) (List.range k).reverse := by
  obtain ⟨-, hbd⟩ := bindLoop_fail_bounds cf es 0 sk bd k r hbl
  refine ⟨?_, ?_, ?_, ?_⟩
  · rw [register_valid_ok cf c es hes hb hn hs h2 h4, hbl]
  · intro j hj
    exact (hbd j hj).2
  · intro j hj
    rw [List.mem_reverse, List.mem_range]
    exact (hbd j hj).2
  · rw [List.pairwise_reverse]
    exact List.pairwise_lt_range k

/-- Closed instance of c6_rollback: three fields, the binding of index
2 fails with -12; indices 1 and 0 are removed in that order and the
bank is not inserted. -/
theorem c6_witness :
    mmio_classdev_register (.ok ()) (fun i => if i = 2 then -12 else 0)
      ⟨some "b", 1, some [⟨"a", 1, 3⟩, ⟨"c", 2, 3⟩, ⟨"d", 4, 3⟩], 0, 1⟩ =
      ⟨-12, true, [], [0, 1], (List.range 2).reverse, false⟩ ∧
    (∀ j ∈ [0, 1], j < 2) ∧
    (∀ j ∈ [0, 1], j ∈ (List.range 2).reverse) ∧
    List.Pairwise (· > ·) (List.range 2).reverse :=
  c6_rollback (fun i => if i = 2 then -12 else 0)
    ⟨some "b", 1, some [⟨"a", 1, 3⟩, ⟨"c", 2, 3⟩, ⟨"d", 4, 3⟩], 0, 1⟩
    [⟨"a", 1, 3⟩, ⟨"c", 2, 3⟩, ⟨"d", 4, 3⟩] [] [0, 1] 2 (-12)
    rfl (by decide) (by decide) (by decide) (by decide) (by decide)
    (by decide)

/-- When every device_create_file call succeeds, bindLoop reports no
failure, every zero-mask index lands in the skipped list only, and
every non-zero-mask index lands in the bound list only. -/
lemma bindLoop_success (cf : Nat → Int) (hcf : ∀ j, cf j = 0) :
    ∀ es i, (bindLoop cf i es).2.2 = none ∧
      ∀ m, m < es.length →
        (((es.getD m ⟨"", 0, 0⟩).mask = 0 →
          (i + m) ∈ (bindLoop cf i es).1 ∧
            (i + m) ∉ (bindLoop cf i es).2.1) ∧
         ((es.getD m ⟨"", 0, 0⟩).mask ≠ 0 →
          (i + m) ∈ (bindLoop cf i es).2.1 ∧
            (i + m) ∉ (bindLoop cf i es).1)) := by
  intro es
  induction es with
  | nil =>
    intro i
    refine ⟨rfl, ?_⟩
    intro m hm
    simp at hm
  | cons e rest ih =>
    intro i
    rcases hbr : bindLoop cf (i + 1) rest with ⟨sk2, bd2, st2⟩
    have hge1 := (bindLoop_mem_ge cf rest (i + 1)).1
    have hge2 := (bindLoop_mem_ge cf rest (i + 1)).2
    rw [hbr] at hge1 hge2
    have ihr := ih (i + 1)
    rw [hbr] at ihr
    obtain ⟨ihnone, ihmem⟩ := ihr
    have hcfi : ¬cf i ≠ 0 := not_ne_iff.mpr (hcf i)
    by_cases hm : e.mask = 0
    · have hrw : bindLoop cf i (e :: rest) = (i :: sk2, bd2, st2) := by
        simp only [bindLoop, hbr, if_pos hm]
      rw [hrw]
      refine ⟨ihnone, ?_⟩
      intro m hmlt
      cases m with
      | zero =>
        refine ⟨fun _ => ⟨by simp, ?_⟩, fun hmask => absurd ?_ hmask⟩
        · intro hmem
          have := hge2 (i + 0) hmem
          omega
        · simpa using hm
      | succ m =>
        have hmlt2 : m < rest.length := by simpa using hmlt
        have hgd : (e :: rest).getD (m + 1) ⟨"", 0, 0⟩ =
            rest.getD m ⟨"", 0, 0⟩ := by simp
        have hidx : i + (m + 1) = (i + 1) + m := by omega
        rw [hgd, hidx]
        obtain ⟨hz, hnz⟩ := ihmem m hmlt2
        refine ⟨fun h0 => ?_, fun h0 => ?_⟩
        · obtain ⟨ha, hb2⟩ := hz h0
          exact ⟨List.mem_cons_of_mem _ ha, hb2⟩
        · obtain ⟨ha, hb2⟩ := hnz h0
          refine ⟨ha, ?_⟩
          intro hmem
          rcases List.mem_cons.mp hmem with heq | hmem2
          · omega
          · exact hb2 hmem2
    · have hrw : bindLoop cf i (e :: rest) = (sk2, i :: bd2, st2) := by
        simp only [bindLoop, hbr, if_neg hm, if_neg hcfi]
      rw [hrw]
      refine ⟨ihnone, ?_⟩
      intro m hmlt
      cases m with
      | zero =>
        refine ⟨fun h0 => absurd ?_ hm, fun _ => ⟨by simp, ?_⟩⟩
        · simpa using h0
        · intro hmem
          have := hge1 (i + 0) hmem
          omega
      | succ m =>
        have hmlt2 : m < rest.length := by simpa using hmlt
        have hgd : (e :: rest).getD (m + 1) ⟨"", 0, 0⟩ =
            rest.getD m ⟨"", 0, 0⟩ := by simp
        have hidx : i + (m + 1) = (i + 1) + m := by omega
        rw [hgd, hidx]
        obtain ⟨hz, hnz⟩ := ihmem m hmlt2
        refine ⟨fun h0 => ?_, fun h0 => ?_⟩
        · obtain ⟨ha, hb2⟩ := hz h0
          refine ⟨ha, ?_⟩
          intro hmem
          rcases List.mem_cons.mp hmem with heq | hmem2
          · omega
          · exact hb2 hmem2
        · obtain ⟨ha, hb2⟩ := hnz h0
          exact ⟨List.mem_cons_of_mem _ ha, hb2⟩

/-- Claim C7: with every binding succeeding and every validation
passing, registration succeeds and inserts the bank, every zero-mask
field is skipped and not bound, and every non-zero-mask field is
bound and not skipped. -/
theorem c7_skip_reserved (cf : Nat → Int) (c : MmioClassdev)
    (es : List MmioEntry) (hes : c.entries = some es) (hb : c.base ≠ 0)
    (hn : c.name ≠ none) (hs : c.size = 1 ∨ c.size = 2 ∨ c.size = 4)
    (h2 : c.size = 2 → (c.base + c.offset) % 2 = 0)
    (h4 : c.size = 4 → (c.base + c.offset) % 4 = 0)
    (hcf : ∀ j, cf j = 0) :
    (mmio_classdev_register (.ok ()) cf c).ret = 0 ∧
    (mmio_classdev_register (.ok ()) cf c).inserted = true ∧
    ∀ m, m < es.length →
      (((es.getD m ⟨"", 0, 0⟩).mask = 0 →
        m ∈ (mmio_classdev_register (.ok ()) cf c).skipped ∧
          m ∉ (mmio_classdev_register (.ok ()) cf c).bound) ∧
       ((es.getD m ⟨"", 0, 0⟩).mask ≠ 0 →
        m ∈ (mmio_classdev_register (.ok ()) cf c).bound ∧
          m ∉ (mmio_classdev_register (.ok ()) cf c).skipped)) := by
  obtain ⟨hnone, hmem⟩ := bindLoop_success cf hcf es 0
  have hreg : mmio_classdev_register (.ok ()) cf c =
      ⟨0, true, (bindLoop cf 0 es).1, (bindLoop cf 0 es).2.1, [], true⟩ := by
    rw [register_valid_ok cf c es hes hb hn hs h2 h4, hnone]
  rw [hreg]
  refine ⟨rfl, rfl, ?_⟩
  intro m hmlt
  have := hmem m hmlt
  simpa using this

/-- Closed instance of c7_skip_reserved: the middle field has mask 0
and is skipped; the two others are bound; the bank is inserted. -/
theorem c7_witness :
    (mmio_classdev_register (.ok ()) (fun _ => 0)
      ⟨some "b", 1, some [⟨"a", 1, 3⟩, ⟨"z", 0, 3⟩, ⟨"d", 4, 3⟩], 0, 1⟩).ret
        = 0 ∧
    (mmio_classdev_register (.ok ()) (fun _ => 0)
      ⟨some "b", 1, some [⟨"a", 1, 3⟩, ⟨"z", 0, 3⟩, ⟨"d", 4, 3⟩],
        0, 1⟩).inserted = true ∧
    (1 ∈ (mmio_classdev_register (.ok ()) (fun _ => 0)
      ⟨some "b", 1, some [⟨"a", 1, 3⟩, ⟨"z", 0, 3⟩, ⟨"d", 4, 3⟩],
        0, 1⟩).skipped ∧
     1 ∉ (mmio_classdev_register (.ok ()) (fun _ => 0)
      ⟨some "b", 1, some [⟨"a", 1, 3⟩, ⟨"z", 0, 3⟩, ⟨"d", 4, 3⟩],
        0, 1⟩).bound) := by
  obtain ⟨h1, h2, h3⟩ := c7_skip_reserved (fun _ => 0)
    ⟨some "b", 1, some [⟨"a", 1, 3⟩, ⟨"z", 0, 3⟩, ⟨"d", 4, 3⟩], 0, 1⟩
    [⟨"a", 1, 3⟩, ⟨"z", 0, 3⟩, ⟨"d", 4, 3⟩] rfl (by decide) (by decide)
    (by decide) (by decide) (by decide) (fun _ => rfl)
  exact ⟨h1, h2, (h3 1 (by decide)).1 (by decide)⟩

/-- Claim C9: for a found, writable entry the write handler consumes
the leading decimal digits plus at most one trailing whitespace
character; when that consumed count differs from the buffer size it
returns -EINVAL without calling set and with the hardware state
untouched, and when the counts agree it calls set with the parsed
integer. -/
theorem c9_store_parse (fuel : Nat) (c : MmioClassdev) (nm : String)
    (buf : List Char) (hw : Nat) (e : MmioEntry) (count : Nat)
    (hfind : (c.entries.getD []).find? (fun x => x.name = nm) = some e)
    (hwr : ¬e.flags &&& MMIO_ENTRY_WRITE = 0)
    (hcount : count =
      if isSpaceC (buf.getD (buf.takeWhile Char.isDigit).length
          (Char.ofNat 0))
      then (buf.takeWhile Char.isDigit).length + 1
      else (buf.takeWhile Char.isDigit).length) :
    (count ≠ buf.length →
      mmio_value_store fuel c nm buf hw = some ⟨-22, false, 0, hw⟩) ∧
    (count = buf.length →
      ∀ res, mmio_value_store fuel c nm buf hw = some res →
        res.setCalled = true ∧ res.setArg = parseDigitsVal buf) := by
  subst hcount
  constructor
  · intro hne
    simp only [mmio_value_store, hfind, if_neg hwr, if_neg hne]
  · intro heq res hres
    simp only [mmio_value_store, hfind, if_neg hwr, if_pos heq] at hres
    cases hset : mmio_set_value fuel (some c) (some e)
        (parseDigitsVal buf) hw with
    | none =>
      rw [hset] at hres
      simp at hres
    | some pr =>
      obtain ⟨r2, hw2⟩ := pr
      rw [hset] at hres
      simp only [Option.some.injEq] at hres
      rw [← hres]
      exact ⟨rfl, rfl⟩

/-- Closed instance of c9_store_parse: the input has a digit, a space
and another digit, so the consumed count 2 differs from the size 3 and
the handler rejects it without calling set. -/
theorem c9_witness :
    mmio_value_store 31 ⟨some "b", 1, some [⟨"a", 3, 3⟩], 0, 1⟩ "a"
      ['4', ' ', '2'] 9 = some ⟨-22, false, 0, 9⟩ :=
  (c9_store_parse 31 ⟨some "b", 1, some [⟨"a", 3, 3⟩], 0, 1⟩ "a"
    ['4', ' ', '2'] 9 ⟨"a", 3, 3⟩ 2 (by decide) (by decide)
    (by decide)).1 (by decide)
